import Mathlib

/-!
# Verification of the canonical-cat incremental analysis engine

Shallow embedding of the core of `canonical-cat` (src/lib/usage-tracker.ts,
src/lib/hasher.ts, src/generator.ts): the change-detection cache, the content
hasher's AST normalization, the import resolver and the usage index builder.
Each definition is translated from the corresponding TypeScript function;
JavaScript objects used as string-keyed maps are modelled as association lists
whose `List.lookup` realizes JS property access, and JavaScript numbers that
only ever hold values in [0,1] (similarity, threshold) are modelled as `ℚ`.
-/

namespace CanonicalCat

/-! ## Data model (src/types.ts) -/

/-- The optional AI-generated enrichment stored in a cache record
(`description` field of `CachedComponent` in src/types.ts). -/
structure EnhancedDescription where
  what : String
  whenToUse : String
deriving DecidableEq, Repr

/-- `CachedComponent` from src/types.ts. -/
structure CachedComponent where
  implementationHash : String
  interfaceHash : String
  lastEnhanced : Option String
  description : Option EnhancedDescription
deriving DecidableEq, Repr

/-- `CatalogCache` from src/types.ts.  The JS `Record<string, CachedComponent>`
is modelled as an association list; `List.lookup` models property access. -/
structure CatalogCache where
  version : String
  lastGenerated : String
  components : List (String × CachedComponent)
deriving DecidableEq, Repr

/-! ## Change-detection cache (src/lib/hasher.ts) -/

/-- `CACHE_VERSION` constant from src/lib/hasher.ts. -/
def CACHE_VERSION : String := "1.0.0"

/-- `calculateSimilarity` from src/lib/hasher.ts: binary similarity of two
hash strings, including the source's redundant second comparison. -/
def calculateSimilarity (hash1 hash2 : String) : ℚ :=
  if hash1 = hash2 then 1
  else if hash1 = hash2 then 1 else 0

/-- `needsRegeneration` from src/lib/hasher.ts. -/
def needsRegeneration (componentKey newImplHash newInterfaceHash : String)
    (cache : CatalogCache) (threshold : ℚ) : Bool :=
  match cache.components.lookup componentKey with
  | none => true
  | some cached =>
    let implSimilarity := calculateSimilarity cached.implementationHash newImplHash
    let interfaceSimilarity := calculateSimilarity cached.interfaceHash newInterfaceHash
    decide (implSimilarity < threshold) || decide (interfaceSimilarity < threshold)

/-- `updateCache` from src/lib/hasher.ts.  The TS mutates
`cache.components[componentKey]`; here the new binding is consed in front,
which gives the same `List.lookup` semantics as JS property assignment.
`now` stands for `new Date().toISOString()`. -/
def updateCache (cache : CatalogCache) (componentKey implHash interfaceHash : String)
    (description : Option EnhancedDescription) (now : String) : CatalogCache :=
  { cache with components :=
      (componentKey,
        { implementationHash := implHash
          interfaceHash := interfaceHash
          lastEnhanced := description.map (fun _ => now)
          description := description }) :: cache.components }

/-- The state of the cache file on disk, as `loadCache` distinguishes it:
absent, unreadable/unparsable (the `catch` branch), or a stored cache value
(successfully parsed JSON). -/
inductive DiskState where
  | missing
  | corrupt
  | stored (cache : CatalogCache)

/-- The empty cache that `loadCache` builds in its fresh-start branches. -/
def emptyCache (now : String) : CatalogCache :=
  { version := CACHE_VERSION, lastGenerated := now, components := [] }

/-- `loadCache` from src/lib/hasher.ts, with the emitted `console.warn`
modelled as the boolean component.  `now` stands for
`new Date().toISOString()`. -/
def loadCacheW (now : String) : DiskState → CatalogCache × Bool
  | .missing => (emptyCache now, false)
  | .corrupt => (emptyCache now, true)
  | .stored cache =>
    if cache.version ≠ CACHE_VERSION then (emptyCache now, true)
    else (cache, false)

/-- The cache value `loadCache` returns. -/
def loadCache (now : String) (d : DiskState) : CatalogCache :=
  (loadCacheW now d).1

/-- The successful-write path of `saveCache` from src/lib/hasher.ts: the disk
ends up holding the cache with its `lastGenerated` timestamp refreshed. -/
def saveCache (now : String) (cache : CatalogCache) : DiskState :=
  .stored { cache with lastGenerated := now }

/-- The §8 scenario cache: update an empty cache at key `"fileA:Button"`,
save it, and reload it. -/
def scenarioReloaded (h1 h2 now1 now2 now3 : String) : CatalogCache :=
  loadCache now3
    (saveCache now2 (updateCache (loadCache now1 .missing) "fileA:Button" h1 h2 none now2))

/-- A concrete populated cache used to instantiate hypotheses. -/
def sampleCache : CatalogCache :=
  { version := CACHE_VERSION
    lastGenerated := "t0"
    components := [("k",
      { implementationHash := "i0"
        interfaceHash := "f0"
        lastEnhanced := some "t0"
        description := some { what := "w", whenToUse := "u" } })] }

/-! ## Content hasher (src/lib/hasher.ts)

ts-morph AST nodes are modelled as trees.  `forEachChild`-style traversal only
visits proper AST nodes, so keywords, punctuation, whitespace and comments that
sit between a composite node's child nodes are kept in the `layout` strings
(and a trailing `tail` string); `getText()` of a composite node is the exact
source text from its first token to its last, interior trivia included, exactly
as in the TypeScript compiler. -/

/-- `ts.SyntaxKind.SingleLineCommentTrivia`. -/
def singleLineCommentTriviaKind : Nat := 2

/-- `ts.SyntaxKind.MultiLineCommentTrivia`. -/
def multiLineCommentTriviaKind : Nat := 3

/-- `ts.SyntaxKind.JSDoc` (JSDocComment). -/
def jsDocCommentKind : Nat := 327

/-- Representative non-comment kind codes used in concrete example trees. -/
def identifierKind : Nat := 80

/-- `ts.SyntaxKind.NumericLiteral`. -/
def numericLiteralKind : Nat := 9

/-- `ts.SyntaxKind.Block`. -/
def blockKind : Nat := 241

/-- `ts.SyntaxKind.ReturnStatement`. -/
def returnStatementKind : Nat := 253

/-- `ts.SyntaxKind.FunctionDeclaration`. -/
def functionDeclarationKind : Nat := 262

/-- `ts.SyntaxKind.Parameter`. -/
def parameterKind : Nat := 169

/-- `ts.SyntaxKind.NumberKeyword`. -/
def numberKeywordKind : Nat := 150

/-- `ts.SyntaxKind.StringKeyword`. -/
def stringKeywordKind : Nat := 154

mutual

/-- A ts-morph AST node: a leaf node carrying its source text, or a composite
node whose source text is the interleaving of layout strings (tokens and
trivia that are not child nodes) with its child nodes' texts. -/
inductive TSNode where
  | token (kind : Nat) (text : String)
  | composite (kind : Nat) (pieces : TSPieces) (tail : String)

/-- The child list of a composite node: before each child, the layout text
(keywords, punctuation, whitespace, comments) that precedes it. -/
inductive TSPieces where
  | nil
  | cons (layout : String) (child : TSNode) (rest : TSPieces)

end

mutual

/-- `node.getKind()`. -/
def TSNode.getKind : TSNode → Nat
  | .token kind _ => kind
  | .composite kind _ _ => kind

/-- `node.getText()`: the exact source text of the node (interior trivia
included, leading trivia excluded). -/
def TSNode.getText : TSNode → String
  | .token _ text => text
  | .composite _ pieces tail => TSPieces.textOf pieces ++ tail

/-- Source text of a child list. -/
def TSPieces.textOf : TSPieces → String
  | .nil => ""
  | .cons layout child rest => layout ++ child.getText ++ TSPieces.textOf rest

end

mutual

/-- `node.forEachDescendant` visit order: every proper descendant node in
depth-first source order (the node itself is not visited). -/
def TSNode.descendants : TSNode → List TSNode
  | .token _ _ => []
  | .composite _ pieces _ => TSPieces.descendantsOf pieces

/-- Descendants contributed by a child list. -/
def TSPieces.descendantsOf : TSPieces → List TSNode
  | .nil => []
  | .cons _ child rest => child :: child.descendants ++ TSPieces.descendantsOf rest

end

mutual

/-- The leaf-node texts of a tree in source order; two trees that are
formatting-only variants of each other have the same leaf texts, the same
kinds and the same shape, and differ only in layout strings. -/
def TSNode.tokenTexts : TSNode → List String
  | .token _ text => [text]
  | .composite _ pieces _ => TSPieces.tokenTextsOf pieces

/-- Leaf-node texts of a child list. -/
def TSPieces.tokenTextsOf : TSPieces → List String
  | .nil => []
  | .cons _ child rest => child.tokenTexts ++ TSPieces.tokenTextsOf rest

end

/-- JavaScript `String.prototype.trim()`: strip whitespace from both ends. -/
def jsTrim (s : String) : String :=
  String.mk (((s.data.dropWhile Char.isWhitespace).reverse.dropWhile Char.isWhitespace).reverse)

/-- `normalizeASTForHashing` from src/lib/hasher.ts: visit every descendant,
skip the three comment kinds, trim each remaining descendant's source text,
keep the non-empty ones and join them with a pipe. -/
def normalizeASTForHashing (node : TSNode) : String :=
  let normalized := node.descendants.filterMap (fun descendant =>
    if descendant.getKind = singleLineCommentTriviaKind ∨
        descendant.getKind = multiLineCommentTriviaKind ∨
        descendant.getKind = jsDocCommentKind then
      none
    else
      let text := jsTrim descendant.getText
      if text = "" then none else some text)
  String.intercalate "|" normalized

/-- `hashComponentImplementation` from src/lib/hasher.ts.  The sha256 digest
(node:crypto, outside this repository) is abstracted as the parameter `hash`;
statements about digests differing assume `hash` is collision-free
(`Function.Injective`), the property the spec ascribes to the digest. -/
def hashComponentImplementation (hash : String → String) (componentNode : TSNode) : String :=
  hash (normalizeASTForHashing componentNode)

/-- `hashComponentInterface` from src/lib/hasher.ts: the signature text, with
the normalized props node appended when one is given, digested. -/
def hashComponentInterface (hash : String → String) (propsNode : Option TSNode)
    (signatureText : String) : String :=
  hash (match propsNode with
    | some node => signatureText ++ normalizeASTForHashing node
    | none => signatureText)

/-- The AST of `function f() { return 1; }`, parameterized by the whitespace
`ws` that follows the opening brace of the body block: changing `ws` is a
formatting-only edit (every leaf text, kind, and the tree shape are fixed). -/
def exampleFn (ws : String) : TSNode :=
  .composite functionDeclarationKind
    (.cons "function " (.token identifierKind "f")
      (.cons "() " (.composite blockKind
        (.cons ("\x7b" ++ ws)
          (.composite returnStatementKind
            (.cons "return " (.token numericLiteralKind "1") .nil) ";")
          .nil)
        " \x7d")
      .nil))
    ""

/-- The body block `{ return 1; }` shared by the two `exampleTyped` trees. -/
def exampleBody : TSNode :=
  .composite blockKind
    (.cons "\x7b "
      (.composite returnStatementKind
        (.cons "return " (.token numericLiteralKind "1") .nil) ";")
      .nil)
    " \x7d"

/-- The AST of `function g(x: <ty>) { return 1; }`, parameterized by the
parameter type annotation: the two instantiations below share the body
`exampleBody` byte for byte and differ only in the signature. -/
def exampleTyped (tyKind : Nat) (ty : String) : TSNode :=
  .composite functionDeclarationKind
    (.cons "function " (.token identifierKind "g")
      (.cons "(" (.composite parameterKind
          (.cons "" (.token identifierKind "x")
            (.cons ": " (.token tyKind ty) .nil))
          "")
        (.cons ") " exampleBody .nil)))
    ""

/-! ## Import resolver (src/lib/usage-tracker.ts)

POSIX path handling (node:path, outside this repository) is given executable
models sufficient for absolute referencing files, which is what the code
feeds it: `getFilePath()` is always absolute. -/

/-- Does the string start with the given character (`String.startsWith` for a
one-character pattern, e.g. `moduleSpecifier.startsWith(".")`). -/
def startsWithChar (s : String) (c : Char) : Bool :=
  match s.data with
  | [] => false
  | d :: _ => d = c

/-- JavaScript `s.split("/")`. -/
def splitSlash (s : String) : List String :=
  (s.data.foldr
    (fun c acc =>
      match acc with
      | [] => if c = '/' then [[], []] else [[c]]
      | cur :: rest => if c = '/' then [] :: cur :: rest else (c :: cur) :: rest)
    [[]]).map String.mk

/-- Collapse path segments as node's path normalization does for an absolute
path: drop empty and `.` segments, let `..` remove the previous segment. -/
def collapseSegs (segs : List String) : List String :=
  segs.foldl
    (fun acc seg =>
      if seg = "" ∨ seg = "." then acc
      else if seg = ".." then acc.dropLast
      else acc ++ [seg])
    []

/-- `path.dirname` for POSIX paths. -/
def pathDirname (p : String) : String :=
  let parts := splitSlash p
  if parts.length ≤ 1 then "."
  else if parts.dropLast = [""] then "/"
  else String.intercalate "/" parts.dropLast

/-- `path.resolve(base, spec)` where `base` is absolute. -/
def pathResolve (base spec : String) : String :=
  if startsWithChar spec '/' then
    "/" ++ String.intercalate "/" (collapseSegs (splitSlash spec))
  else
    "/" ++ String.intercalate "/" (collapseSegs (splitSlash (base ++ "/" ++ spec)))

/-- Common-segment elimination helper for `pathRelative`. -/
def dropCommonStart : List String → List String → List String × List String
  | a :: as, b :: bs =>
    if a = b then dropCommonStart as bs else (a :: as, b :: bs)
  | as, bs => (as, bs)

/-- `path.relative(fromPath, toPath)` for absolute POSIX paths (the code's
`.replace(/\\/g, "/")` is the identity on POSIX paths and is dropped). -/
def pathRelative (fromPath toPath : String) : String :=
  let f := collapseSegs (splitSlash fromPath)
  let t := collapseSegs (splitSlash toPath)
  let pair := dropCommonStart f t
  String.intercalate "/" (pair.1.map (fun _ => "..") ++ pair.2)

/-- `resolveImportPath` from src/lib/usage-tracker.ts.  `fileSet` is the list
of paths of the ts-morph project's source files; `project.getSourceFile` is
membership in it. -/
def resolveImportPath (currentFilePath moduleSpecifier : String)
    (fileSet : List String) : Option String :=
  if startsWithChar moduleSpecifier '.' then
    let currentDir := pathDirname currentFilePath
    let resolvedPath := pathResolve currentDir moduleSpecifier
    let extensions := [".ts", ".tsx", ".js", ".jsx", ""]
    match extensions.findSome? (fun ext =>
        if fileSet.contains (resolvedPath ++ ext) then some (resolvedPath ++ ext)
        else none) with
    | some tryPath => some tryPath
    | none =>
      let indexExtensions := ["/index.ts", "/index.tsx", "/index.js", "/index.jsx"]
      indexExtensions.findSome? (fun indexExt =>
        if fileSet.contains (resolvedPath ++ indexExt) then some (resolvedPath ++ indexExt)
        else none)
  else none

/-- The resolver as the claim words it (the refinement target, from the
claim's text, not from the source): the exact joined path is the FIRST
candidate, then the extension candidates, then the index-file candidates. -/
def resolveImportPathClaimOrder (currentFilePath moduleSpecifier : String)
    (fileSet : List String) : Option String :=
  if startsWithChar moduleSpecifier '.' then
    let p := pathResolve (pathDirname currentFilePath) moduleSpecifier
    [p, p ++ ".ts", p ++ ".tsx", p ++ ".js", p ++ ".jsx",
      p ++ "/index.ts", p ++ "/index.tsx", p ++ "/index.js",
      p ++ "/index.jsx"].find? fileSet.contains
  else none

/-! ## Usage index builder (src/lib/usage-tracker.ts)

Source files are modelled by what `buildImportIndex` reads off them: the file
path, the import declarations (specifier, optional default-import binding,
named imports where `getName()` is the original exported name — ts-morph's
`propertyName ?? name` — and the alias, when present, is a separate node),
and the stream of `Identifier` descendants, each with its line number and
whether it has an `ImportDeclaration` ancestor. -/

/-- `UsageReference` from src/types.ts. -/
structure UsageReference where
  filePath : String
  line : Nat
deriving DecidableEq, Repr

/-- A named import specifier.  `name` is `ImportSpecifier.getName()`, i.e. the
original exported name; for `Button as B`, `name` is `"Button"` and
`aliasName` is `some "B"` (the local binding). -/
structure NamedImportM where
  name : String
  aliasName : Option String
deriving DecidableEq, Repr

/-- An import declaration as `buildImportIndex` reads it. -/
structure ImportDeclM where
  moduleSpecifier : String
  defaultImport : Option String
  namedImports : List NamedImportM
deriving DecidableEq, Repr

/-- An `Identifier` descendant occurrence in a file. -/
structure IdentifierM where
  text : String
  line : Nat
  insideImport : Bool
deriving DecidableEq, Repr

/-- A source file as the usage index builder consumes it. -/
structure SourceFileM where
  filePath : String
  imports : List ImportDeclM
  identifiers : List IdentifierM
deriving DecidableEq, Repr

/-- `isBarrelFile` from src/lib/usage-tracker.ts; a minimatch glob pattern is
abstracted as the matcher function it denotes. -/
def isBarrelFile (filePath : String) (barrelPatterns : List (String → Bool)) : Bool :=
  barrelPatterns.any (fun pattern => pattern filePath)

/-- The `ImportIndex` JS object, as an association list; `List.lookup` models
property access. -/
abbrev ImportIndex := List (String × List UsageReference)

/-- JS property assignment `index[key] = refs`: update in place, or append a
new key. -/
def setEntry (index : ImportIndex) (key : String) (refs : List UsageReference) :
    ImportIndex :=
  match index with
  | [] => [(key, refs)]
  | (k, v) :: rest =>
    if k = key then (k, refs) :: rest else (k, v) :: setEntry rest key refs

/-- JS property read `index[key]`. -/
def getEntry (index : ImportIndex) (key : String) : Option (List UsageReference) :=
  index.lookup key

/-- The inner identifier scan of `buildImportIndex`: every identifier whose
text equals the symbol name and which is not inside an import declaration
yields a reference to the current file, relative to the working directory. -/
def scanUsages (cwd : String) (file : SourceFileM) (symbolName : String) :
    List UsageReference :=
  (file.identifiers.filter (fun ident => ident.text == symbolName && !ident.insideImport)).map
    (fun ident => { filePath := pathRelative cwd file.filePath, line := ident.line })

/-- The bound symbols of one import declaration, in the order the code
collects them: the default import binding, then each named import's
`getName()` — the original exported name, never the alias. -/
def importedSymbols (imp : ImportDeclM) : List String :=
  (match imp.defaultImport with
   | some d => [d]
   | none => []) ++ imp.namedImports.map (fun n => n.name)

/-- Processing of one import declaration inside `buildImportIndex`: resolve
the specifier; if unresolved skip; otherwise, for each bound symbol, ensure
the entry for `resolvedPath:symbolName` exists and push the scanned usages. -/
def processImport (cwd : String) (fileSet : List String) (file : SourceFileM)
    (index : ImportIndex) (imp : ImportDeclM) : ImportIndex :=
  match resolveImportPath file.filePath imp.moduleSpecifier fileSet with
  | none => index
  | some resolvedPath =>
    (importedSymbols imp).foldl
      (fun index symbolName =>
        let key := resolvedPath ++ ":" ++ symbolName
        setEntry index key ((getEntry index key).getD [] ++ scanUsages cwd file symbolName))
      index

/-- Processing of one source file inside `buildImportIndex`: barrel files are
skipped entirely, otherwise every import declaration is processed. -/
def processFile (cwd : String) (fileSet : List String)
    (barrelPatterns : List (String → Bool)) (index : ImportIndex)
    (file : SourceFileM) : ImportIndex :=
  if isBarrelFile file.filePath barrelPatterns then index
  else file.imports.foldl (processImport cwd fileSet file) index

/-- The deduplication step of `buildImportIndex`: the JS
`new Map(usages.map(u => [filePath:line, u])).values()` keeps, for each
distinct (filePath, line), one copy at the position of its first occurrence
(the key determines the whole record, so last-value-wins equals keep-first). -/
def dedupUsages (usages : List UsageReference) : List UsageReference :=
  usages.foldl
    (fun acc u =>
      if acc.any (fun v => v.filePath == u.filePath && v.line == u.line) then acc
      else acc ++ [u])
    []

/-- Is `a` ordered no later than `b` under the source's comparator:
`localeCompare` on file paths (modelled as lexicographic string order), ties
broken by ascending line. -/
def usageLE (a b : UsageReference) : Prop :=
  a.filePath < b.filePath ∨ (a.filePath = b.filePath ∧ a.line ≤ b.line)

instance (a b : UsageReference) : Decidable (usageLE a b) := by
  unfold usageLE; infer_instance

/-- Insertion into a list sorted by the comparator. -/
def insertUsage (u : UsageReference) : List UsageReference → List UsageReference
  | [] => [u]
  | v :: vs => if usageLE u v then u :: v :: vs else v :: insertUsage u vs

/-- The sorting step of `buildImportIndex`.  After deduplication the
comparator is a total order with no ties, so the sorted result does not
depend on the sorting algorithm; insertion sort is used here. -/
def sortUsages (usages : List UsageReference) : List UsageReference :=
  usages.foldr insertUsage []

/-- The final loop of `buildImportIndex`: every key's usage list is replaced
by its deduplicated, sorted version. -/
def finalizeIndex (index : ImportIndex) : ImportIndex :=
  index.map (fun entry => (entry.1, sortUsages (dedupUsages entry.2)))

/-- `buildImportIndex` from src/lib/usage-tracker.ts: one pass over all
files (skipping barrel files), then per-key deduplication and sorting.
The progress callback performs no computation and is omitted. -/
def buildImportIndex (cwd : String) (files : List SourceFileM)
    (barrelPatterns : List (String → Bool)) : ImportIndex :=
  let fileSet := files.map (fun f => f.filePath)
  let index := files.foldl (processFile cwd fileSet barrelPatterns) []
  finalizeIndex index

/-- `trackUsagesFromIndex` from src/lib/usage-tracker.ts. -/
def trackUsagesFromIndex (symbolName exportFilePath : String)
    (importIndex : ImportIndex) : List UsageReference :=
  (getEntry importIndex (exportFilePath ++ ":" ++ symbolName)).getD []

/-- A file importing `{ x }` from itself (`/a/x.ts` importing `"./x"`) and
using `x` at line 5 outside the import clause. -/
def selfImportFile : SourceFileM :=
  { filePath := "/a/x.ts"
    imports := [{ moduleSpecifier := "./x", defaultImport := none,
                  namedImports := [{ name := "x", aliasName := none }] }]
    identifiers := [{ text := "x", line := 1, insideImport := true },
                    { text := "x", line := 5, insideImport := false }] }

/-- The file defining `Button`, with no imports. -/
def buttonDefFile : SourceFileM :=
  { filePath := "/a/Button.ts"
    imports := []
    identifiers := [{ text := "Button", line := 1, insideImport := false }] }

/-- A file importing `{ Button as B }` from `./Button`, using the local
binding `B` at line 10 and the original name `Button` at line 20, both
outside the import clause. -/
def aliasUseFile : SourceFileM :=
  { filePath := "/a/b.ts"
    imports := [{ moduleSpecifier := "./Button", defaultImport := none,
                  namedImports := [{ name := "Button", aliasName := some "B" }] }]
    identifiers := [{ text := "Button", line := 1, insideImport := true },
                    { text := "B", line := 1, insideImport := true },
                    { text := "B", line := 10, insideImport := false },
                    { text := "Button", line := 20, insideImport := false }] }

/-- Provenance predicate for C4: the reference originates from a non-barrel
file of the set, names that file relative to the working directory, and stems
from an identifier occurrence outside any import clause. -/
def RefOk (cwd : String) (files : List SourceFileM)
    (barrelPatterns : List (String → Bool)) (ref : UsageReference) : Prop :=
  ∃ f, f ∈ files ∧ isBarrelFile f.filePath barrelPatterns = false ∧
    ref.filePath = pathRelative cwd f.filePath ∧
    ∃ ident, ident ∈ f.identifiers ∧ ident.insideImport = false ∧
      ident.line = ref.line

/-- All references stored in an index satisfy `RefOk`. -/
def IndexOk (cwd : String) (files : List SourceFileM)
    (barrelPatterns : List (String → Bool)) (index : ImportIndex) : Prop :=
  ∀ key refs, index.lookup key = some refs →
    ∀ ref ∈ refs, RefOk cwd files barrelPatterns ref

/-- Key-aware provenance predicate for C8: the reference under `key` comes
from a file whose import resolved to the key's target, the key is the
canonical `resolvedPath:symbolName` string for a bound symbol of that import
(a default binding or a named import's original exported name — never an
alias), and the reference stems from an identifier occurrence outside
any import clause whose text is exactly that symbol. -/
def KeyRefOk (cwd : String) (files : List SourceFileM) (fileSet : List String)
    (key : String) (ref : UsageReference) : Prop :=
  ∃ f imp resolvedPath symbolName,
    f ∈ files ∧ imp ∈ f.imports ∧
    resolveImportPath f.filePath imp.moduleSpecifier fileSet = some resolvedPath ∧
    symbolName ∈ importedSymbols imp ∧
    key = resolvedPath ++ ":" ++ symbolName ∧
    ref.filePath = pathRelative cwd f.filePath ∧
    ∃ ident, ident ∈ f.identifiers ∧ ident.insideImport = false ∧
      ident.text = symbolName ∧ ident.line = ref.line

/-- All references stored in an index satisfy `KeyRefOk` for their key. -/
def IndexKeyOk (cwd : String) (files : List SourceFileM) (fileSet : List String)
    (index : ImportIndex) : Prop :=
  ∀ key refs, index.lookup key = some refs →
    ∀ ref ∈ refs, KeyRefOk cwd files fileSet key ref

/-! ## Theorems -/

/-- Helper: `List.lookup` after a JS property assignment. -/
theorem setEntry_lookup (index : ImportIndex) (key k : String)
    (refs : List UsageReference) :
    (setEntry index key refs).lookup k =
      if k = key then some refs else index.lookup k := by
  induction index with
  | nil =>
    by_cases h : k = key
    · simp [setEntry, List.lookup, h]
    · simp [setEntry, List.lookup, h, beq_eq_false_iff_ne.mpr h]
  | cons hd tl ih =>
    obtain ⟨k1, v1⟩ := hd
    by_cases h1 : k1 = key
    · subst h1
      by_cases h2 : k = k1
      · subst h2
        simp [setEntry, List.lookup]
      · simp [setEntry, List.lookup, h2, beq_eq_false_iff_ne.mpr h2]
    · by_cases h2 : k = k1
      · have hkey : ¬k = key := fun hk => h1 (h2.symm.trans hk)
        simp [setEntry, List.lookup, h1, hkey, beq_iff_eq.mpr h2]
      · simp [setEntry, List.lookup, h1, beq_eq_false_iff_ne.mpr h2, ih]

/-- Helper: every reference produced by the identifier scan names the scanned
file relative to the working directory and stems from an identifier
occurrence outside any import clause. -/
theorem scanUsages_mem (cwd : String) (file : SourceFileM) (sym : String)
    (ref : UsageReference) (h : ref ∈ scanUsages cwd file sym) :
    ref.filePath = pathRelative cwd file.filePath ∧
    ∃ ident, ident ∈ file.identifiers ∧ ident.insideImport = false ∧
      ident.line = ref.line := by
  simp only [scanUsages, List.mem_map, List.mem_filter] at h
  obtain ⟨ident, ⟨hmem, hcond⟩, heq⟩ := h
  subst heq
  simp only [Bool.and_eq_true, beq_iff_eq, Bool.not_eq_eq_eq_not, Bool.not_true] at hcond
  exact ⟨rfl, ident, hmem, hcond.2, rfl⟩

/-- Helper: `setEntry` keeps an index `IndexOk` when the refs written satisfy
`RefOk`. -/
theorem indexOk_setEntry (cwd : String) (files : List SourceFileM)
    (barrelPatterns : List (String → Bool)) (index : ImportIndex)
    (key : String) (refs : List UsageReference)
    (hidx : IndexOk cwd files barrelPatterns index)
    (hrefs : ∀ r ∈ refs, RefOk cwd files barrelPatterns r) :
    IndexOk cwd files barrelPatterns (setEntry index key refs) := by
  intro k v hv r hr
  rw [setEntry_lookup] at hv
  split at hv
  · cases hv
    exact hrefs r hr
  · exact hidx k v hv r hr

/-- Helper: processing one import declaration keeps the index `IndexOk`. -/
theorem indexOk_processImport (cwd : String) (fileSet : List String)
    (files : List SourceFileM) (barrelPatterns : List (String → Bool))
    (file : SourceFileM) (hfile : file ∈ files)
    (hbar : isBarrelFile file.filePath barrelPatterns = false)
    (imp : ImportDeclM) (index : ImportIndex)
    (hidx : IndexOk cwd files barrelPatterns index) :
    IndexOk cwd files barrelPatterns (processImport cwd fileSet file index imp) := by
  cases hres : resolveImportPath file.filePath imp.moduleSpecifier fileSet with
  | none => simpa [processImport, hres] using hidx
  | some resolvedPath =>
    simp only [processImport, hres]
    revert hidx
    generalize importedSymbols imp = syms
    induction syms generalizing index with
    | nil => exact fun hidx => hidx
    | cons s ss ih =>
      intro hidx
      simp only [List.foldl]
      apply ih
      apply indexOk_setEntry cwd files barrelPatterns index _ _ hidx
      intro r hr
      rcases List.mem_append.mp hr with hmem | hmem
      · cases hget : getEntry index (resolvedPath ++ ":" ++ s) with
        | none => rw [hget] at hmem; simp at hmem
        | some v =>
          rw [hget] at hmem
          exact hidx _ v hget r hmem
      · obtain ⟨hpath, ident, hml, hins, hline⟩ := scanUsages_mem cwd file s r hmem
        exact ⟨file, hfile, hbar, hpath, ident, hml, hins, hline⟩

/-- Helper: processing one source file keeps the index `IndexOk`. -/
theorem indexOk_processFile (cwd : String) (fileSet : List String)
    (barrelPatterns : List (String → Bool)) (files : List SourceFileM)
    (file : SourceFileM) (index : ImportIndex) (hfile : file ∈ files)
    (hidx : IndexOk cwd files barrelPatterns index) :
    IndexOk cwd files barrelPatterns
      (processFile cwd fileSet barrelPatterns index file) := by
  unfold processFile
  split
  next => exact hidx
  next hbar =>
    have hb : isBarrelFile file.filePath barrelPatterns = false := by
      simpa using hbar
    revert hidx
    generalize file.imports = imps
    induction imps generalizing index with
    | nil => exact fun hidx => hidx
    | cons imp imps ih =>
      intro hidx
      simp only [List.foldl]
      exact ih _ (indexOk_processImport cwd fileSet files barrelPatterns file
        hfile hb imp index hidx)

/-- Helper: the whole-file-set fold keeps the index `IndexOk`. -/
theorem indexOk_buildRaw (cwd : String) (fileSet : List String)
    (barrelPatterns : List (String → Bool)) (files : List SourceFileM)
    (l : List SourceFileM) (hsub : ∀ f ∈ l, f ∈ files)
    (index : ImportIndex) (hidx : IndexOk cwd files barrelPatterns index) :
    IndexOk cwd files barrelPatterns
      (l.foldl (processFile cwd fileSet barrelPatterns) index) := by
  induction l generalizing index with
  | nil => exact hidx
  | cons f fs ih =>
    simp only [List.foldl]
    exact ih (fun g hg => hsub g (List.mem_cons_of_mem f hg)) _
      (indexOk_processFile cwd fileSet barrelPatterns files f index
        (hsub f (List.mem_cons_self f fs)) hidx)

/-- Helper: `List.lookup` commutes with the finalization pass. -/
theorem lookup_finalizeIndex (index : ImportIndex) (k : String) :
    (finalizeIndex index).lookup k =
      (index.lookup k).map (fun v => sortUsages (dedupUsages v)) := by
  induction index with
  | nil => rfl
  | cons hd tl ih =>
    obtain ⟨k1, v1⟩ := hd
    by_cases h : k = k1
    · subst h
      simp [finalizeIndex, List.lookup]
    · simp only [finalizeIndex, List.map, List.lookup, beq_eq_false_iff_ne.mpr h]
      simpa [finalizeIndex] using ih

/-- Helper: members of an insertion come from the inserted element or the
list. -/
theorem mem_insertUsage (u r : UsageReference) (l : List UsageReference)
    (h : r ∈ insertUsage u l) : r = u ∨ r ∈ l := by
  induction l with
  | nil => simpa [insertUsage] using h
  | cons v vs ih =>
    unfold insertUsage at h
    split at h
    · rcases List.mem_cons.mp h with h1 | h1
      · exact Or.inl h1
      · exact Or.inr h1
    · rcases List.mem_cons.mp h with h1 | h1
      · exact Or.inr (List.mem_cons.mpr (Or.inl h1))
      · rcases ih h1 with h2 | h2
        · exact Or.inl h2
        · exact Or.inr (List.mem_cons.mpr (Or.inr h2))

/-- Helper: sorting introduces no new members. -/
theorem mem_sortUsages (l : List UsageReference) (r : UsageReference)
    (h : r ∈ sortUsages l) : r ∈ l := by
  unfold sortUsages at h
  induction l with
  | nil => simp at h
  | cons u us ih =>
    simp only [List.foldr] at h
    rcases mem_insertUsage u r _ h with h1 | h1
    · exact List.mem_cons.mpr (Or.inl h1)
    · exact List.mem_cons.mpr (Or.inr (ih h1))

/-- Helper: the deduplication fold introduces no new members. -/
theorem mem_dedup_aux (l acc : List UsageReference) (r : UsageReference)
    (h : r ∈ l.foldl
      (fun acc u =>
        if acc.any (fun v => v.filePath == u.filePath && v.line == u.line) then acc
        else acc ++ [u])
      acc) :
    r ∈ acc ∨ r ∈ l := by
  induction l generalizing acc with
  | nil => exact Or.inl h
  | cons u us ih =>
    simp only [List.foldl] at h
    rcases ih _ h with h1 | h1
    · by_cases hc :
        (acc.any fun v => v.filePath == u.filePath && v.line == u.line) = true
      · rw [if_pos hc] at h1
        exact Or.inl h1
      · rw [if_neg hc] at h1
        rcases List.mem_append.mp h1 with h2 | h2
        · exact Or.inl h2
        · simp only [List.mem_singleton] at h2
          exact Or.inr (List.mem_cons.mpr (Or.inl h2))
    · exact Or.inr (List.mem_cons.mpr (Or.inr h1))

/-- Helper: deduplication introduces no new members. -/
theorem mem_dedupUsages (l : List UsageReference) (r : UsageReference)
    (h : r ∈ dedupUsages l) : r ∈ l := by
  rcases mem_dedup_aux l [] r h with h1 | h1
  · simp at h1
  · exact h1

/-- Helper: like `scanUsages_mem`, additionally recording that the matched
identifier's text is exactly the scanned symbol name. -/
theorem scanUsages_mem_text (cwd : String) (file : SourceFileM) (sym : String)
    (ref : UsageReference) (h : ref ∈ scanUsages cwd file sym) :
    ref.filePath = pathRelative cwd file.filePath ∧
    ∃ ident, ident ∈ file.identifiers ∧ ident.insideImport = false ∧
      ident.text = sym ∧ ident.line = ref.line := by
  simp only [scanUsages, List.mem_map, List.mem_filter] at h
  obtain ⟨ident, ⟨hmem, hcond⟩, heq⟩ := h
  subst heq
  simp only [Bool.and_eq_true, beq_iff_eq, Bool.not_eq_eq_eq_not, Bool.not_true] at hcond
  exact ⟨rfl, ident, hmem, hcond.2, hcond.1, rfl⟩

/-- Helper: `setEntry` keeps an index `IndexKeyOk` when the refs written
satisfy `KeyRefOk` for the written key. -/
theorem indexKeyOk_setEntry (cwd : String) (files : List SourceFileM)
    (fileSet : List String) (index : ImportIndex)
    (key : String) (refs : List UsageReference)
    (hidx : IndexKeyOk cwd files fileSet index)
    (hrefs : ∀ r ∈ refs, KeyRefOk cwd files fileSet key r) :
    IndexKeyOk cwd files fileSet (setEntry index key refs) := by
  intro k v hv r hr
  rw [setEntry_lookup] at hv
  split at hv
  next heq =>
    cases hv
    subst heq
    exact hrefs r hr
  next => exact hidx k v hv r hr

/-- Helper: the per-symbol fold of `processImport` keeps the index
`IndexKeyOk`, for any list of symbols bound by the import. -/
theorem indexKeyOk_foldSyms (cwd : String) (fileSet : List String)
    (files : List SourceFileM) (file : SourceFileM) (hfile : file ∈ files)
    (imp : ImportDeclM) (himp : imp ∈ file.imports) (resolvedPath : String)
    (hres : resolveImportPath file.filePath imp.moduleSpecifier fileSet =
      some resolvedPath)
    (syms : List String) (index : ImportIndex)
    (hsyms : ∀ s ∈ syms, s ∈ importedSymbols imp)
    (hidx : IndexKeyOk cwd files fileSet index) :
    IndexKeyOk cwd files fileSet
      (syms.foldl
        (fun index symbolName =>
          let key := resolvedPath ++ ":" ++ symbolName
          setEntry index key
            ((getEntry index key).getD [] ++ scanUsages cwd file symbolName))
        index) := by
  revert hsyms hidx
  induction syms generalizing index with
  | nil => exact fun _ hidx => hidx
  | cons s ss ih =>
    intro hsyms hidx
    simp only [List.foldl]
    apply ih
    · exact fun t ht => hsyms t (List.mem_cons_of_mem s ht)
    · apply indexKeyOk_setEntry cwd files fileSet index _ _ hidx
      intro r hr
      rcases List.mem_append.mp hr with hmem | hmem
      · cases hget : getEntry index (resolvedPath ++ ":" ++ s) with
        | none => rw [hget] at hmem; simp at hmem
        | some v =>
          rw [hget] at hmem
          exact hidx _ v hget r hmem
      · obtain ⟨hpath, ident, hml, hins, htext, hline⟩ :=
          scanUsages_mem_text cwd file s r hmem
        exact ⟨file, imp, resolvedPath, s, hfile, himp, hres,
          hsyms s (List.mem_cons_self s ss), rfl, hpath, ident, hml, hins, htext, hline⟩

/-- Helper: processing one import declaration keeps the index `IndexKeyOk`. -/
theorem indexKeyOk_processImport (cwd : String) (fileSet : List String)
    (files : List SourceFileM) (file : SourceFileM) (hfile : file ∈ files)
    (imp : ImportDeclM) (himp : imp ∈ file.imports) (index : ImportIndex)
    (hidx : IndexKeyOk cwd files fileSet index) :
    IndexKeyOk cwd files fileSet (processImport cwd fileSet file index imp) := by
  cases hres : resolveImportPath file.filePath imp.moduleSpecifier fileSet with
  | none => simpa [processImport, hres] using hidx
  | some resolvedPath =>
    simp only [processImport, hres]
    exact indexKeyOk_foldSyms cwd fileSet files file hfile imp himp resolvedPath hres
      (importedSymbols imp) index (fun _ hs => hs) hidx

/-- Helper: the per-import fold of `processFile` keeps the index
`IndexKeyOk`, for any list of the file's import declarations. -/
theorem indexKeyOk_foldImps (cwd : String) (fileSet : List String)
    (files : List SourceFileM) (file : SourceFileM) (hfile : file ∈ files)
    (imps : List ImportDeclM) (index : ImportIndex)
    (hImps : ∀ i ∈ imps, i ∈ file.imports)
    (hidx : IndexKeyOk cwd files fileSet index) :
    IndexKeyOk cwd files fileSet
      (imps.foldl (processImport cwd fileSet file) index) := by
  revert hImps hidx
  induction imps generalizing index with
  | nil => exact fun _ hidx => hidx
  | cons imp imps ih =>
    intro hImps hidx
    simp only [List.foldl]
    apply ih
    · exact fun i hi => hImps i (List.mem_cons_of_mem imp hi)
    · exact indexKeyOk_processImport cwd fileSet files file hfile imp
        (hImps imp (List.mem_cons_self imp imps)) index hidx

/-- Helper: processing one source file keeps the index `IndexKeyOk`. -/
theorem indexKeyOk_processFile (cwd : String) (fileSet : List String)
    (barrelPatterns : List (String → Bool)) (files : List SourceFileM)
    (file : SourceFileM) (index : ImportIndex) (hfile : file ∈ files)
    (hidx : IndexKeyOk cwd files fileSet index) :
    IndexKeyOk cwd files fileSet
      (processFile cwd fileSet barrelPatterns index file) := by
  unfold processFile
  split
  next => exact hidx
  next =>
    exact indexKeyOk_foldImps cwd fileSet files file hfile
      file.imports index (fun _ hi => hi) hidx

/-- Helper: the whole-file-set fold keeps the index `IndexKeyOk`. -/
theorem indexKeyOk_buildRaw (cwd : String) (fileSet : List String)
    (barrelPatterns : List (String → Bool)) (files : List SourceFileM)
    (l : List SourceFileM) (hsub : ∀ f ∈ l, f ∈ files)
    (index : ImportIndex) (hidx : IndexKeyOk cwd files fileSet index) :
    IndexKeyOk cwd files fileSet
      (l.foldl (processFile cwd fileSet barrelPatterns) index) := by
  induction l generalizing index with
  | nil => exact hidx
  | cons f fs ih =>
    simp only [List.foldl]
    exact ih (fun g hg => hsub g (List.mem_cons_of_mem f hg)) _
      (indexKeyOk_processFile cwd fileSet barrelPatterns files f index
        (hsub f (List.mem_cons_self f fs)) hidx)

/-- Helper: a first-match loop over candidates built by `f` is `find?` over
the mapped candidate list. -/
theorem findSome?_candidates (P : String → Bool) (f : String → String) (l : List String) :
    (l.findSome? fun x => if P (f x) then some (f x) else none) = (l.map f).find? P := by
  induction l with
  | nil => rfl
  | cons x xs ih =>
    by_cases h : P (f x) <;> simp [List.findSome?, List.find?, h, ih]

/-- Helper: `find?` over an appended list, as a match on the first part. -/
theorem find?_append_match (P : String → Bool) (l1 l2 : List String) :
    (l1 ++ l2).find? P =
      (match l1.find? P with
       | some x => some x
       | none => l2.find? P) := by
  induction l1 with
  | nil => simp
  | cons x xs ih =>
    by_cases h : P x <;> simp [List.find?, h, ih]

/-- C1: `needsRegeneration` returns true when the cache holds no record for
the key; otherwise it returns true exactly when the binary similarity of the
stored and new implementation hashes, or of the stored and new interface
hashes, is below the threshold. -/
theorem c1_needsRegeneration_spec (cache : CatalogCache)
    (key newImplHash newInterfaceHash : String) (threshold : ℚ) :
    (cache.components.lookup key = none →
      needsRegeneration key newImplHash newInterfaceHash cache threshold = true) ∧
    (∀ cached, cache.components.lookup key = some cached →
      (needsRegeneration key newImplHash newInterfaceHash cache threshold = true ↔
        (calculateSimilarity cached.implementationHash newImplHash < threshold ∨
         calculateSimilarity cached.interfaceHash newInterfaceHash < threshold))) := by
  constructor
  · intro h
    simp [needsRegeneration, h]
  · intro cached h
    simp [needsRegeneration, h]

/-- Witness for C1 at a concrete cache, key and threshold. -/
theorem c1_needsRegeneration_spec_witness :
    needsRegeneration "k" "i1" "f0" sampleCache (1/2) = true :=
  ((c1_needsRegeneration_spec sampleCache "k" "i1" "f0" (1/2)).2 _ rfl).2
    (Or.inl (by
      have h : ("i0" : String) ≠ "i1" := by decide
      simp only [sampleCache, calculateSimilarity, if_neg h]
      norm_num))

/-- C10: with threshold 0, a cached entity is never flagged for regeneration,
whatever the new hashes are. -/
theorem c10_threshold_zero (cache : CatalogCache)
    (key newImplHash newInterfaceHash : String) (cached : CachedComponent)
    (h : cache.components.lookup key = some cached) :
    needsRegeneration key newImplHash newInterfaceHash cache 0 = false := by
  simp only [needsRegeneration, h, calculateSimilarity]
  simp only [Bool.or_eq_false_iff, decide_eq_false_iff_not]
  constructor <;> split <;> norm_num

/-- Witness for C10: a cached record with both hashes changed, threshold 0. -/
theorem c10_threshold_zero_witness :
    needsRegeneration "k" "i9" "f9" sampleCache 0 = false :=
  c10_threshold_zero sampleCache "k" "i9" "f9" _ rfl

/-- C7: `loadCache` is total (it is a Lean function) and returns an empty
cache with the current format version, without a warning for a missing file,
and with a warning for a corrupt or version-mismatched file. -/
theorem c7_loadCache_recovery (now : String) :
    loadCacheW now .missing = (emptyCache now, false) ∧
    loadCacheW now .corrupt = (emptyCache now, true) ∧
    (∀ cache, cache.version ≠ CACHE_VERSION →
      loadCacheW now (.stored cache) = (emptyCache now, true)) ∧
    (emptyCache now).version = CACHE_VERSION ∧
    (emptyCache now).components = [] := by
  refine ⟨rfl, rfl, ?_, rfl, rfl⟩
  intro cache hv
  simp [loadCacheW, hv]

/-- Witness for C7 at a concrete version-mismatched stored cache. -/
theorem c7_loadCache_recovery_witness :
    loadCacheW "t" (.stored { version := "0.9.0", lastGenerated := "x", components := [] })
      = (emptyCache "t", true) :=
  (c7_loadCache_recovery "t").2.2.1 _ (by decide)

/-- C6: from an empty cache, `needsRegeneration` at key `"fileA:Button"` is
true; after `updateCache`, `saveCache` and a reload it is false for the same
hash pair; and it is true again for a changed implementation hash. -/
theorem c6_cache_roundtrip (h1 h2 h1' now1 now2 now3 : String) (hne : h1' ≠ h1) :
    needsRegeneration "fileA:Button" h1 h2 (loadCache now1 .missing) (17/20) = true ∧
    needsRegeneration "fileA:Button" h1 h2 (scenarioReloaded h1 h2 now1 now2 now3) (17/20) = false ∧
    needsRegeneration "fileA:Button" h1' h2 (scenarioReloaded h1 h2 now1 now2 now3) (17/20) = true := by
  have hreload : scenarioReloaded h1 h2 now1 now2 now3 =
      { version := CACHE_VERSION, lastGenerated := now2,
        components := [("fileA:Button",
          { implementationHash := h1, interfaceHash := h2,
            lastEnhanced := none, description := none })] } := rfl
  refine ⟨rfl, ?_, ?_⟩
  · rw [hreload]
    simp only [needsRegeneration, List.lookup]
    simp [calculateSimilarity]
    norm_num
  · rw [hreload]
    simp only [needsRegeneration, List.lookup]
    simp [calculateSimilarity, Ne.symm hne]

/-- Witness for C6 at concrete hashes and timestamps. -/
theorem c6_cache_roundtrip_witness :
    needsRegeneration "fileA:Button" "a" "b" (loadCache "t1" .missing) (17/20) = true ∧
    needsRegeneration "fileA:Button" "a" "b" (scenarioReloaded "a" "b" "t1" "t2" "t3") (17/20) = false ∧
    needsRegeneration "fileA:Button" "c" "b" (scenarioReloaded "a" "b" "t1" "t2" "t3") (17/20) = true :=
  c6_cache_roundtrip "a" "b" "c" "t1" "t2" "t3" (by decide)

/-- C9 counterexample: updating a record that holds an enrichment payload,
supplying no enrichment, does not leave the stored payload unchanged — it is
reset to `none`. -/
theorem c9_counterexample :
    ((updateCache sampleCache "k" "i1" "f1" none "t1").components.lookup "k").map
        (fun r => r.description) ≠
      (sampleCache.components.lookup "k").map (fun r => r.description) := by
  decide

/-- C9 amended: `updateCache` installs exactly the record with the new hashes,
an enrichment timestamp iff an enrichment is supplied, and the supplied
enrichment (so with no enrichment the previous payload and timestamp are
reset to absent, not preserved); lookups at every other key are unchanged. -/
theorem c9_updateCache_frame (cache : CatalogCache)
    (key implHash interfaceHash now : String) (desc : Option EnhancedDescription) :
    ((updateCache cache key implHash interfaceHash desc now).components.lookup key =
      some { implementationHash := implHash
             interfaceHash := interfaceHash
             lastEnhanced := desc.map (fun _ => now)
             description := desc }) ∧
    (∀ k, k ≠ key →
      (updateCache cache key implHash interfaceHash desc now).components.lookup k =
        cache.components.lookup k) := by
  constructor
  · simp [updateCache, List.lookup]
  · intro k hk
    have hb : (k == key) = false := beq_eq_false_iff_ne.mpr hk
    simp [updateCache, List.lookup, hb]

/-- Witness for C9's amended frame property at a concrete other key. -/
theorem c9_updateCache_frame_witness :
    (updateCache sampleCache "k" "i1" "f1" none "t1").components.lookup "other" =
      sampleCache.components.lookup "other" :=
  (c9_updateCache_frame sampleCache "k" "i1" "f1" "t1" none).2 "other" (by decide)

/-- C2 (code bug): a whitespace-only edit — one extra space after the opening
brace of `function f() { return 1; }` — leaves every leaf token text
unchanged but changes the string `normalizeASTForHashing` digests, because
the normalization appends the raw `getText()` of every descendant and a
composite descendant's text contains its interior whitespace.  Hence the
implementation hash changes under a formatting-only edit, contradicting the
claim and the code's own documentation. -/
theorem c2_formatting_changes_hash :
    TSNode.tokenTexts (exampleFn " ") = TSNode.tokenTexts (exampleFn "  ") ∧
    normalizeASTForHashing (exampleFn " ") ≠ normalizeASTForHashing (exampleFn "  ") := by
  constructor
  · rfl
  · decide

/-- C3 (code bug): changing only a parameter type annotation — the signature —
while keeping the body byte-identical (`exampleBody` is shared) changes the
normalized implementation string, hence the implementation hash for every
collision-free digest, although the claim requires `implementationHash` to be
unchanged when only the signature changes. -/
theorem c3_signature_change_changes_implHash :
    normalizeASTForHashing (exampleTyped numberKeywordKind "number") ≠
      normalizeASTForHashing (exampleTyped stringKeywordKind "string") ∧
    (∀ hash : String → String, Function.Injective hash →
      hashComponentImplementation hash (exampleTyped numberKeywordKind "number") ≠
        hashComponentImplementation hash (exampleTyped stringKeywordKind "string")) := by
  have hne : normalizeASTForHashing (exampleTyped numberKeywordKind "number") ≠
      normalizeASTForHashing (exampleTyped stringKeywordKind "string") := by decide
  refine ⟨hne, ?_⟩
  intro hash hinj hEq
  exact hne (hinj hEq)

/-- Witness for C3's collision-freeness hypothesis at the identity digest. -/
theorem c3_signature_change_changes_implHash_witness :
    hashComponentImplementation id (exampleTyped numberKeywordKind "number") ≠
      hashComponentImplementation id (exampleTyped stringKeywordKind "string") :=
  c3_signature_change_changes_implHash.2 id (fun _ _ h => h)

/-- C5 counterexample: when the file set contains both the exact joined path
and the joined path with `.ts` appended, the code returns the `.ts` candidate,
not the exact path the claim says is tried first. -/
theorem c5_counterexample :
    resolveImportPath "/a/bar.ts" "./foo" ["/a/foo", "/a/foo.ts"] = some "/a/foo.ts" ∧
    resolveImportPathClaimOrder "/a/bar.ts" "./foo" ["/a/foo", "/a/foo.ts"] = some "/a/foo" := by
  constructor
  · rfl
  · rfl

/-- C5 amended: the resolver tries, in order, the joined path with each
extension `.ts`, `.tsx`, `.js`, `.jsx`, then the EXACT joined path (the empty
extension is last in the source's list), then each index-file suffix, and
returns the first candidate present in the file set; a non-relative specifier
is always unresolved. -/
theorem c5_candidate_order (currentFilePath moduleSpecifier : String)
    (fileSet : List String) :
    resolveImportPath currentFilePath moduleSpecifier fileSet =
      (if startsWithChar moduleSpecifier '.' then
        (let p := pathResolve (pathDirname currentFilePath) moduleSpecifier
        [p ++ ".ts", p ++ ".tsx", p ++ ".js", p ++ ".jsx", p,
          p ++ "/index.ts", p ++ "/index.tsx", p ++ "/index.js",
          p ++ "/index.jsx"].find? fileSet.contains)
      else none) := by
  unfold resolveImportPath
  split
  · simp only [findSome?_candidates, List.map, String.append_empty]
    exact (find?_append_match fileSet.contains
      [pathResolve (pathDirname currentFilePath) moduleSpecifier ++ ".ts",
        pathResolve (pathDirname currentFilePath) moduleSpecifier ++ ".tsx",
        pathResolve (pathDirname currentFilePath) moduleSpecifier ++ ".js",
        pathResolve (pathDirname currentFilePath) moduleSpecifier ++ ".jsx",
        pathResolve (pathDirname currentFilePath) moduleSpecifier]
      [pathResolve (pathDirname currentFilePath) moduleSpecifier ++ "/index.ts",
        pathResolve (pathDirname currentFilePath) moduleSpecifier ++ "/index.tsx",
        pathResolve (pathDirname currentFilePath) moduleSpecifier ++ "/index.js",
        pathResolve (pathDirname currentFilePath) moduleSpecifier ++ "/index.jsx"]).symm
  · rfl

/-- C4 counterexample: a file that imports an entity from itself yields a
usage reference whose file IS the entity's own definition file (`/a/x.ts`
relative to the working directory `/` is `a/x.ts`), so the self-file
exclusion claimed for the UsageIndex does not hold. -/
theorem c4_counterexample :
    getEntry (buildImportIndex "/" [selfImportFile] []) "/a/x.ts:x" =
      some [{ filePath := "a/x.ts", line := 5 }] ∧
    pathRelative "/" "/a/x.ts" = "a/x.ts" := by
  constructor
  · decide
  · decide

/-- C4 amended: every usage reference in the built index originates from a
file of the set that matches no configured barrel pattern (so barrel files
never contribute references), names that file relative to the working
directory, and stems from an identifier occurrence outside any import
clause.  The self-file exclusion is dropped: the reference's file can be the
entity's own definition file when that file imports the entity from itself. -/
theorem c4_usage_index_provenance (cwd : String) (files : List SourceFileM)
    (barrelPatterns : List (String → Bool)) (key : String)
    (refs : List UsageReference) (ref : UsageReference)
    (hlook : getEntry (buildImportIndex cwd files barrelPatterns) key = some refs)
    (href : ref ∈ refs) :
    ∃ f, f ∈ files ∧ isBarrelFile f.filePath barrelPatterns = false ∧
      ref.filePath = pathRelative cwd f.filePath ∧
      ∃ ident, ident ∈ f.identifiers ∧ ident.insideImport = false ∧
        ident.line = ref.line := by
  have hraw : IndexOk cwd files barrelPatterns
      (files.foldl (processFile cwd (files.map (fun f => f.filePath)) barrelPatterns) []) := by
    apply indexOk_buildRaw cwd (files.map (fun f => f.filePath)) barrelPatterns files files
      (fun f hf => hf) []
    intro k v hv r hr
    simp [List.lookup] at hv
  simp only [buildImportIndex, getEntry] at hlook
  rw [lookup_finalizeIndex] at hlook
  cases hmap : (files.foldl (processFile cwd (files.map (fun f => f.filePath)) barrelPatterns)
      []).lookup key with
  | none => rw [hmap] at hlook; simp at hlook
  | some v =>
    rw [hmap] at hlook
    simp at hlook
    subst hlook
    exact hraw key v hmap ref (mem_dedupUsages v ref (mem_sortUsages _ ref href))

/-- Witness for C4's amended provenance at the self-import scenario. -/
theorem c4_usage_index_provenance_witness :
    ∃ f, f ∈ [selfImportFile] ∧ isBarrelFile f.filePath [] = false ∧
      (UsageReference.mk "a/x.ts" 5).filePath = pathRelative "/" f.filePath ∧
      ∃ ident, ident ∈ f.identifiers ∧ ident.insideImport = false ∧
        ident.line = (UsageReference.mk "a/x.ts" 5).line :=
  c4_usage_index_provenance "/" [selfImportFile] [] "/a/x.ts:x"
    [UsageReference.mk "a/x.ts" 5] (UsageReference.mk "a/x.ts" 5)
    (by decide) (by decide)

/-- C8 counterexample: for `import { Button as B } from "./Button"` with a
use of the local binding `B` at line 10 outside the import clause, the built
index records only the occurrence of the ORIGINAL name `Button` (line 20):
the claimed usage at line 10, under the local binding name, is absent. -/
theorem c8_counterexample :
    getEntry (buildImportIndex "/" [buttonDefFile, aliasUseFile] [])
        "/a/Button.ts:Button" =
      some [{ filePath := "a/b.ts", line := 20 }] ∧
    UsageReference.mk "a/b.ts" 10 ∉ [UsageReference.mk "a/b.ts" 20] := by
  constructor
  · decide
  · decide

/-- C8 amended, universally: the bound symbols of an import are exactly the
default-import binding and each named import's ORIGINAL exported name
(`ImportSpecifier.getName()`, i.e. `propertyName ?? name`) — aliases never
appear; and every reference recorded in the built index lies under the
canonical key `resolvedPath:symbolName` for such a bound original name of
an import of the originating file, and stems from an identifier occurrence
outside any import clause whose text is exactly that original name.  Hence
usages are tracked by the original name, occurrences of a local alias are
never counted (its text is not a bound symbol unless it coincides with one),
and keys stay canonical. -/
theorem c8_tracked_by_original_name (cwd : String) (files : List SourceFileM)
    (barrelPatterns : List (String → Bool)) :
    (∀ imp s, s ∈ importedSymbols imp ↔
      (imp.defaultImport = some s ∨ ∃ n ∈ imp.namedImports, n.name = s)) ∧
    (∀ key refs ref,
      getEntry (buildImportIndex cwd files barrelPatterns) key = some refs →
      ref ∈ refs →
      ∃ f imp resolvedPath symbolName,
        f ∈ files ∧ imp ∈ f.imports ∧
        resolveImportPath f.filePath imp.moduleSpecifier
            (files.map (fun g => g.filePath)) = some resolvedPath ∧
        symbolName ∈ importedSymbols imp ∧
        key = resolvedPath ++ ":" ++ symbolName ∧
        ref.filePath = pathRelative cwd f.filePath ∧
        ∃ ident, ident ∈ f.identifiers ∧ ident.insideImport = false ∧
          ident.text = symbolName ∧ ident.line = ref.line) := by
  constructor
  · intro imp s
    cases hd : imp.defaultImport with
    | none => simp [importedSymbols, hd, eq_comm]
    | some d => simp [importedSymbols, hd, eq_comm]
  · intro key refs ref hlook href
    have hraw : IndexKeyOk cwd files (files.map (fun f => f.filePath))
        (files.foldl (processFile cwd (files.map (fun f => f.filePath)) barrelPatterns) []) := by
      apply indexKeyOk_buildRaw cwd (files.map (fun f => f.filePath)) barrelPatterns files files
        (fun f hf => hf) []
      intro k v hv r hr
      simp [List.lookup] at hv
    simp only [buildImportIndex, getEntry] at hlook
    rw [lookup_finalizeIndex] at hlook
    cases hmap : (files.foldl (processFile cwd (files.map (fun f => f.filePath)) barrelPatterns)
        []).lookup key with
    | none => rw [hmap] at hlook; simp at hlook
    | some v =>
      rw [hmap] at hlook
      simp at hlook
      subst hlook
      exact hraw key v hmap ref (mem_dedupUsages v ref (mem_sortUsages _ ref href))

/-- Witness for C8's amended tracking property at the aliased-import
scenario: the reference recorded at line 20 under the canonical key
`/a/Button.ts:Button` stems from an occurrence of the original name. -/
theorem c8_tracked_by_original_name_witness :
    ∃ f imp resolvedPath symbolName,
      f ∈ [buttonDefFile, aliasUseFile] ∧ imp ∈ f.imports ∧
      resolveImportPath f.filePath imp.moduleSpecifier
          ([buttonDefFile, aliasUseFile].map (fun g => g.filePath)) = some resolvedPath ∧
      symbolName ∈ importedSymbols imp ∧
      "/a/Button.ts:Button" = resolvedPath ++ ":" ++ symbolName ∧
      (UsageReference.mk "a/b.ts" 20).filePath = pathRelative "/" f.filePath ∧
      ∃ ident, ident ∈ f.identifiers ∧ ident.insideImport = false ∧
        ident.text = symbolName ∧
        ident.line = (UsageReference.mk "a/b.ts" 20).line :=
  (c8_tracked_by_original_name "/" [buttonDefFile, aliasUseFile] []).2
    "/a/Button.ts:Button" [UsageReference.mk "a/b.ts" 20]
    (UsageReference.mk "a/b.ts" 20) (by decide) (by decide)

end CanonicalCat
